import Mathlib

/-!
Verification of the multiplexer-graph bitstream encoder of OpenFPGA.

The definitions below are a shallow embedding of the C++ sources:
- `find_mux_default_path_id`, `build_cmos_mux_bitstream` and
  `build_mux_bitstream` from `openfpga/src/base/openfpga_link_arch.cpp`
  (second compilation unit of that file, the bitstream builder);
- the structural Verilog branch writer
  `generate_verilog_cmos_mux_branch_module_structural` from the
  multiplexer submodule generator.

Machine integers are embedded as `Nat`/`Int`; the implicit conversion of
the C++ `int path_id` to `size_t` is made explicit as a reduction modulo
2^64.  Fatal conditions (`VTR_ASSERT`, `exit(1)`) are embedded as the
error arm of `Except`, so that a computation that would abort the process
returns an explicit error value instead of a bitstream.

Library pieces whose implementation is not among the sources (only their
call sites are) are modelled from the specification; each such definition
carries a doc comment starting with `Modelled from the spec:`.
-/

/-- Design technology tag of a circuit model.  The C++ enumeration has the
members `CIRCUIT_MODEL_DESIGN_CMOS` and `CIRCUIT_MODEL_DESIGN_RRAM`; the
constructor `other` stands for any further (corrupt or future) tag value,
which the dispatch handles through its `default:` branch. -/
inductive CircuitModelDesignTech where
  | cmos
  | rram
  | other
deriving DecidableEq

/-- The slice of the `CircuitLibrary` interface the encoder consults for a
multiplexer circuit model.  The C++ accessors `design_tech_type`,
`mux_add_const_input` and `mux_use_local_encoder` become record fields. -/
structure CircuitModel where
  design_tech : CircuitModelDesignTech
  mux_add_const_input : Bool
  mux_use_local_encoder : Bool

/-- One edge of a multiplexer graph: it connects one input node to one
output node and is annotated with the id of the controlling memory and the
inverted-memory flag. -/
structure MuxEdge where
  from_input : Nat
  to_output : Nat
  mem : Nat
  inv_mem : Bool
deriving DecidableEq

/-- A multiplexer graph: input, output and memory nodes are the ids
`0, ..., count - 1`; the annotated edges connect inputs to outputs; and
`levels` lists, level by level, the memory ids at each level
(`mux_graph.levels()` together with `mux_graph.memories_at_level(level)`
in the C++ interface). -/
structure MuxGraph where
  num_inputs : Nat
  num_outputs : Nat
  num_mems : Nat
  edges : List MuxEdge
  levels : List (List Nat)

/-- Modelled from the spec: `MuxGraph::find_edges` is not among the
sources; per the data model, it returns the edges connecting the given
input node to the given output node. -/
def MuxGraph.find_edges (g : MuxGraph) (input_id output_id : Nat) : List MuxEdge :=
  g.edges.filter (fun e => e.from_input == input_id && e.to_output == output_id)

/-- Modelled from the spec: `MuxGraph::find_edge_mem` returns the
controlling memory id annotated on an edge. -/
def find_edge_mem (e : MuxEdge) : Nat :=
  e.mem

/-- Modelled from the spec: `MuxGraph::is_edge_use_inv_mem` returns the
inverted-memory flag annotated on an edge. -/
def is_edge_use_inv_mem (e : MuxEdge) : Bool :=
  e.inv_mem

/-- Modelled from the spec: `MuxGraph::decode_memory_bits` is not among
the sources.  Per the spec, a memory's bit is true iff that memory
controls an edge connecting the selected input to the selected output and
the edge does not use the inverted-memory convention; memories not on the
selected path are false.  The result has one entry per memory node,
indexed by memory id. -/
def MuxGraph.decode_memory_bits (g : MuxGraph) (input_id output_id : Nat) : List Bool :=
  (List.range g.num_mems).map (fun mem =>
    (g.find_edges input_id output_id).any
      (fun e => find_edge_mem e == mem && is_edge_use_inv_mem e == false))

/-- The `MuxLibrary` as consulted by the encoder: a lookup from
(circuit model, datapath size) to the corresponding multiplexer graph
(the C++ pair `mux_lib.mux_graph(mux_model, mux_size)` followed by
`mux_lib.mux_graph(mux_graph_id)`). -/
structure MuxLibrary where
  mux_graph : CircuitModel → Nat → MuxGraph

/-- Modelled from the spec: the sentinel path id meaning "let policy
choose the default path"; the constants header is not among the sources.
The sentinel lies outside the valid range `[0, mux_size)`. -/
def DEFAULT_PATH_ID : Int :=
  -1

/-- Modelled from the spec: the fixed first-input index used as the
default path when no constant input exists ("index 0"); the constants
header defining `DEFAULT_MUX_PATH_ID` is not among the sources. -/
def DEFAULT_MUX_PATH_ID : Nat :=
  0

/-- Modelled from the spec: `find_mux_implementation_num_inputs` is not
among the sources.  The implemented input count differs from the
requested datapath size exactly when the model adds a constant input,
which by convention is wired as one extra, final input. -/
def find_mux_implementation_num_inputs (model : CircuitModel) (mux_size : Nat) : Nat :=
  if model.mux_add_const_input then mux_size + 1 else mux_size

/-- Modelled from the spec: `find_mux_local_decoder_addr_size` is not
among the sources.  The address width of a local decoder over
`data_size` memories is the ceiling of the base-2 logarithm: the least
`w` with `data_size ≤ 2 ^ w` (computed as the first such `w` below
`data_size`, which always exists for `data_size ≥ 1`). -/
def find_mux_local_decoder_addr_size (data_size : Nat) : Nat :=
  ((List.range data_size).find? (fun w => data_size ≤ 2 ^ w)).getD 0

/-- Modelled from the spec: `itobin_vec` is not among the sources.  It
returns the fixed-width binary representation of `in_int`, one digit
(0 or 1) per entry, most-significant digit first. -/
def itobin_vec (in_int : Nat) (bin_len : Nat) : List Nat :=
  (List.range bin_len).map (fun i => in_int / 2 ^ (bin_len - 1 - i) % 2)

/-- Interpretation of a bit list as an unsigned binary integer,
most-significant bit first; used to state the local-encoder round trip. -/
def binlist_to_nat (bits : List Bool) : Nat :=
  bits.foldl (fun acc bit => 2 * acc + (if bit then 1 else 0)) 0

/-- Fatal conditions of the bitstream builder, one constructor per
`VTR_ASSERT` / `exit(1)` site. -/
inductive MuxBitstreamError where
  | assert_datapath_lt_mux_size
  | assert_datapath_lt_num_inputs
  | assert_one_output
  | assert_at_most_one_set_bit
  | invalid_design_tech
deriving DecidableEq

/-- Embedding of `find_mux_default_path_id`: with a constant input the
default path is the last input (`mux_size - 1`); otherwise it is the
fixed constant `DEFAULT_MUX_PATH_ID`. -/
def find_mux_default_path_id (model : CircuitModel) (mux_size : Nat) : Nat :=
  if model.mux_add_const_input then mux_size - 1 else DEFAULT_MUX_PATH_ID

/-- The path-resolution slice of `build_cmos_mux_bitstream`: the sentinel
resolves through `find_mux_default_path_id` applied to the implemented
size; an explicit path id is converted to `size_t` (reduction modulo
2^64) and checked by `VTR_ASSERT(datapath_id < mux_size)` against the
requested logical size. -/
def resolve_cmos_datapath_id (model : CircuitModel) (mux_size : Nat) (path_id : Int) :
    Except MuxBitstreamError Nat :=
  if path_id = DEFAULT_PATH_ID then
    .ok (find_mux_default_path_id model (find_mux_implementation_num_inputs model mux_size))
  else
    let datapath_id : Nat := (path_id % (2 ^ 64 : Int)).toNat
    if datapath_id < mux_size then .ok datapath_id
    else .error .assert_datapath_lt_mux_size

/-- The body of the per-level local-encoding loop of
`build_cmos_mux_bitstream`: a single-memory level passes its raw bit
through; otherwise the positions of set bits within the level are
collected, at most one may be set (`VTR_ASSERT`), and the selected
position (0 when none is set) is emitted as a fixed-width binary address. -/
def build_mux_level_bitstream (raw_bitstream : List Bool) (level_mems : List Nat) :
    Except MuxBitstreamError (List Bool) :=
  if level_mems.length = 1 then
    .ok [raw_bitstream.getD (level_mems.getD 0 0) false]
  else
    let encoder_data := (List.range level_mems.length).filter
      (fun mem_index => raw_bitstream.getD (level_mems.getD mem_index 0) false)
    if encoder_data.length = 0 ∨ encoder_data.length = 1 then
      let encoder_addr :=
        if encoder_data.length = 0 then
          itobin_vec 0 (find_mux_local_decoder_addr_size level_mems.length)
        else
          itobin_vec (encoder_data.getD 0 0)
            (find_mux_local_decoder_addr_size level_mems.length)
      .ok (encoder_addr.map (fun bit => 1 == bit))
    else
      .error .assert_at_most_one_set_bit

/-- The level loop of `build_cmos_mux_bitstream`: the encoded bitstream is
the concatenation, level by level, of the per-level encodings; a fatal
condition in any level aborts the whole computation. -/
def encode_mux_levels (raw_bitstream : List Bool) (levels : List (List Nat)) :
    Except MuxBitstreamError (List Bool) :=
  match levels with
  | [] => .ok []
  | level_mems :: rest =>
    match build_mux_level_bitstream raw_bitstream level_mems with
    | .error e => .error e
    | .ok bits =>
      match encode_mux_levels raw_bitstream rest with
      | .error e => .error e
      | .ok rest_bits => .ok (bits ++ rest_bits)

/-- Embedding of `build_cmos_mux_bitstream`: fetch the graph for the
requested datapath size, resolve the path id, check the two structural
assertions, decode the raw memory bits along the selected path, and
either return them unchanged (no local encoder) or re-encode them level
by level. -/
def build_cmos_mux_bitstream (model : CircuitModel) (mux_lib : MuxLibrary)
    (mux_size : Nat) (path_id : Int) : Except MuxBitstreamError (List Bool) :=
  let mux_graph := mux_lib.mux_graph model mux_size
  match resolve_cmos_datapath_id model mux_size path_id with
  | .error e => .error e
  | .ok datapath_id =>
    if datapath_id < mux_graph.num_inputs then
      if mux_graph.num_outputs = 1 then
        let raw_bitstream := mux_graph.decode_memory_bits datapath_id 0
        if model.mux_use_local_encoder then
          encode_mux_levels raw_bitstream mux_graph.levels
        else
          .ok raw_bitstream
      else
        .error .assert_one_output
    else
      .error .assert_datapath_lt_num_inputs

/-- Embedding of `build_mux_bitstream`: dispatch on the design
technology.  CMOS runs the CMOS builder; the ReRAM case is an
unimplemented TODO in the source whose `break` leaves the
default-initialized empty vector as the result; any other tag logs an
error and calls `exit(1)`. -/
def build_mux_bitstream (model : CircuitModel) (mux_lib : MuxLibrary)
    (mux_size : Nat) (path_id : Int) : Except MuxBitstreamError (List Bool) :=
  match model.design_tech with
  | .cmos => build_cmos_mux_bitstream model mux_lib mux_size path_id
  | .rram => .ok []
  | .other => .error .invalid_design_tech

/-- Modelled from the spec: the MuxGraph construction (not among the
sources) maintains the invariant that between any (input, output) pair
there is at most one edge. -/
def MuxGraph.at_most_one_edge_per_pair (g : MuxGraph) : Prop :=
  ∀ input_id output_id : Nat, (g.find_edges input_id output_id).length ≤ 1

/-- Embedding of the per-pair assertion loop of
`generate_verilog_cmos_mux_branch_module_structural`: for every
(input, output) pair the writer visits, it asserts that `find_edges`
returns either exactly one edge or no edge
(`VTR_ASSERT((1 == edges.size()) || (0 == edges.size()))`).  The
function is true iff no visited pair trips the assertion. -/
def verilog_mux_branch_edges_ok (g : MuxGraph) : Bool :=
  (List.range g.num_inputs).all (fun input_id =>
    (List.range g.num_outputs).all (fun output_id =>
      (g.find_edges input_id output_id).length = 1 ∨
      (g.find_edges input_id output_id).length = 0))

/-- A single-bit slice of a named Verilog port, as built by
`BasicPort(name, bit, bit)` in the branch writer. -/
structure BasicPort where
  name : String
  lsb : Nat
  msb : Nat
deriving DecidableEq

/-- The library names of the transmission-gate model's three input ports
and single output port (`circuit_lib.port_lib_name(tgate_input_ports[k])`
and `tgate_output_ports[0]`). -/
structure TgatePorts where
  in0 : String
  in1 : String
  in2 : String
  out0 : String

/-- Embedding of the pass-gate instance wiring of
`generate_verilog_cmos_mux_branch_module_structural` for one edge: the
association list of (tgate port name, connected module port) pairs, in
the order the writer inserts them.  The first tgate input port is wired
to `in[input]`, the output port to `out[output]`; the second and third
input ports are wired to `mem[m]` and `mem_inv[m]` respectively when the
edge does not use the inverted-memory convention, and swapped when it
does. -/
def mux_branch_tgate_port2port (ports : TgatePorts) (e : MuxEdge)
    (input_id output_id : Nat) : List (String × BasicPort) :=
  let cur_input_port : BasicPort := ⟨"in", input_id, input_id⟩
  let cur_output_port : BasicPort := ⟨"out", output_id, output_id⟩
  let mux_mem := find_edge_mem e
  let cur_mem_port : BasicPort := ⟨"mem", mux_mem, mux_mem⟩
  let cur_mem_inv_port : BasicPort := ⟨"mem_inv", mux_mem, mux_mem⟩
  [(ports.in0, cur_input_port), (ports.out0, cur_output_port)] ++
    (if is_edge_use_inv_mem e = false then
      [(ports.in1, cur_mem_port), (ports.in2, cur_mem_inv_port)]
    else
      [(ports.in1, cur_mem_inv_port), (ports.in2, cur_mem_port)])

/-- Helper: the length of a fixed-width binary representation is the
requested width. -/
theorem itobin_vec_length (in_int bin_len : Nat) :
    (itobin_vec in_int bin_len).length = bin_len := by
  simp [itobin_vec]

/-- Helper: a fixed-width binary representation peels off its
least-significant digit at the tail. -/
theorem itobin_vec_succ (v w : Nat) :
    itobin_vec v (w + 1) = itobin_vec (v / 2) w ++ [v % 2] := by
  unfold itobin_vec
  rw [List.range_succ, List.map_append]
  congr 1
  · apply List.map_congr_left
    intro i hi
    rw [List.mem_range] at hi
    have h1 : w + 1 - 1 - i = (w - 1 - i) + 1 := by omega
    rw [h1, pow_succ, Nat.mul_comm, ← Nat.div_div_eq_div_mul]
  · have h0 : w + 1 - 1 - w = 0 := by omega
    simp [h0]

/-- Helper: appending one bit shifts the interpreted value. -/
theorem binlist_to_nat_append_bit (bits : List Bool) (b : Bool) :
    binlist_to_nat (bits ++ [b]) = 2 * binlist_to_nat bits + (if b then 1 else 0) := by
  unfold binlist_to_nat
  rw [List.foldl_append]
  rfl

/-- Helper: the binary representation of zero is all zero digits. -/
theorem itobin_vec_zero (w : Nat) : itobin_vec 0 w = List.replicate w 0 := by
  unfold itobin_vec
  rw [List.eq_replicate_iff]
  constructor
  · simp
  · intro b hb
    rw [List.mem_map] at hb
    obtain ⟨i, -, hi⟩ := hb
    simp at hi
    omega

/-- Helper: interpreting the fixed-width binary representation of a value
below the width's capacity recovers the value. -/
theorem binlist_to_nat_itobin_vec (w : Nat) :
    ∀ v, v < 2 ^ w →
      binlist_to_nat ((itobin_vec v w).map (fun bit => 1 == bit)) = v := by
  induction w with
  | zero =>
    intro v hv
    have hv0 : v = 0 := by simpa using Nat.lt_one_iff.mp (by simpa using hv)
    subst hv0
    rfl
  | succ w ih =>
    intro v hv
    rw [itobin_vec_succ, List.map_append]
    simp only [List.map_cons, List.map_nil]
    rw [binlist_to_nat_append_bit]
    have hv2 : v / 2 < 2 ^ w := by
      rw [pow_succ] at hv
      omega
    rw [ih (v / 2) hv2]
    have hm : v % 2 = 0 ∨ v % 2 = 1 := by omega
    rcases hm with h | h <;> rw [h] <;> simp <;> omega

/-- Helper: every positive count fits below a power of two of exponent
one less than itself. -/
theorem le_two_pow_pred : ∀ n : Nat, 1 ≤ n → n ≤ 2 ^ (n - 1)
  | 0, h => by omega
  | 1, _ => by norm_num
  | (n + 2), _ => by
    have ih := le_two_pow_pred (n + 1) (by omega)
    show n + 2 ≤ 2 ^ (n + 1)
    rw [pow_succ]
    have hih : n + 1 ≤ 2 ^ n := ih
    omega

/-- Helper: a level of positive size fits within the address space of its
local decoder. -/
theorem le_two_pow_addr_size (n : Nat) (h : 1 ≤ n) :
    n ≤ 2 ^ find_mux_local_decoder_addr_size n := by
  unfold find_mux_local_decoder_addr_size
  cases hf : (List.range n).find? (fun w => n ≤ 2 ^ w) with
  | none =>
    exfalso
    have hmem : (n - 1) ∈ List.range n := by
      rw [List.mem_range]
      omega
    have hnone := List.find?_eq_none.mp hf (n - 1) hmem
    simp at hnone
    exact absurd (le_two_pow_pred n h) (by omega)
  | some w =>
    have hw := List.find?_some hf
    simp at hw
    simpa [hf] using hw

/-- Claim C1: for every circuit model and implemented size N ≥ 1,
`find_mux_default_path_id` returns N - 1 when the model has a constant
input and the fixed first-input index 0 when it does not; and
`build_cmos_mux_bitstream` resolves the sentinel path id through the
implemented mux size (`find_mux_implementation_num_inputs`), not the
caller-requested logical size — in particular, with a constant input the
default path is the logical size itself, not logical size minus one. -/
theorem c1_default_path_uses_implemented_size (model : CircuitModel) (n mux_size : Nat)
    (_h : 1 ≤ n) :
    (model.mux_add_const_input = true → find_mux_default_path_id model n = n - 1) ∧
    (model.mux_add_const_input = false → find_mux_default_path_id model n = 0) ∧
    resolve_cmos_datapath_id model mux_size DEFAULT_PATH_ID =
      .ok (find_mux_default_path_id model (find_mux_implementation_num_inputs model mux_size)) ∧
    (model.mux_add_const_input = true →
      resolve_cmos_datapath_id model mux_size DEFAULT_PATH_ID = .ok mux_size) := by
  refine ⟨?_, ?_, ?_, ?_⟩
  · intro hc
    simp [find_mux_default_path_id, hc]
  · intro hc
    simp [find_mux_default_path_id, DEFAULT_MUX_PATH_ID, hc]
  · simp [resolve_cmos_datapath_id]
  · intro hc
    simp [resolve_cmos_datapath_id, find_mux_default_path_id,
      find_mux_implementation_num_inputs, hc]

/-- Witness for C1 at a constant-input model, implemented size 4 and
logical size 4: the default path is input 3 of the implemented structure,
and resolution at the sentinel yields the logical size itself. -/
theorem c1_default_path_uses_implemented_size_witness :
    find_mux_default_path_id ⟨.cmos, true, false⟩ 4 = 3 ∧
    find_mux_default_path_id ⟨.cmos, false, false⟩ 4 = 0 ∧
    resolve_cmos_datapath_id ⟨.cmos, true, false⟩ 4 DEFAULT_PATH_ID = .ok 4 := by
  refine ⟨?_, ?_, ?_⟩
  · exact (c1_default_path_uses_implemented_size ⟨.cmos, true, false⟩ 4 4 (by norm_num)).1 rfl
  · exact (c1_default_path_uses_implemented_size ⟨.cmos, false, false⟩ 4 4 (by norm_num)).2.1 rfl
  · exact (c1_default_path_uses_implemented_size ⟨.cmos, true, false⟩ 4 4
      (by norm_num)).2.2.2 rfl

/-- Claim C2: for a level of size L ≥ 2 whose raw bits restricted to the
level have exactly one set position p, the per-level encoding emits the
fixed-width binary representation of p, of width the local decoder's
address size (the ceiling base-2 logarithm of L), and interpreting those
bits as an unsigned binary integer recovers p; for a level of size 1 the
single raw bit passes through unchanged. -/
theorem c2_local_encoder_round_trip (raw_bitstream : List Bool) (level_mems : List Nat)
    (p : Nat) :
    (2 ≤ level_mems.length →
      (List.range level_mems.length).filter
          (fun mem_index => raw_bitstream.getD (level_mems.getD mem_index 0) false) = [p] →
      build_mux_level_bitstream raw_bitstream level_mems =
        .ok ((itobin_vec p (find_mux_local_decoder_addr_size level_mems.length)).map
          (fun bit => 1 == bit)) ∧
      binlist_to_nat ((itobin_vec p (find_mux_local_decoder_addr_size level_mems.length)).map
          (fun bit => 1 == bit)) = p ∧
      ((itobin_vec p (find_mux_local_decoder_addr_size level_mems.length)).map
          (fun bit => 1 == bit)).length = find_mux_local_decoder_addr_size level_mems.length) ∧
    (level_mems.length = 1 →
      build_mux_level_bitstream raw_bitstream level_mems =
        .ok [raw_bitstream.getD (level_mems.getD 0 0) false]) := by
  constructor
  · intro hL hf
    have hne : ¬ level_mems.length = 1 := by omega
    have hb : build_mux_level_bitstream raw_bitstream level_mems =
        .ok ((itobin_vec p (find_mux_local_decoder_addr_size level_mems.length)).map
          (fun bit => 1 == bit)) := by
      unfold build_mux_level_bitstream
      rw [if_neg hne, hf]
      simp
    have hmem : p ∈ [p] := List.mem_singleton_self p
    rw [← hf] at hmem
    have hpL : p < level_mems.length := by
      have := List.mem_of_mem_filter hmem
      rwa [List.mem_range] at this
    have hwb : level_mems.length ≤ 2 ^ find_mux_local_decoder_addr_size level_mems.length :=
      le_two_pow_addr_size _ (by omega)
    have hp2 : p < 2 ^ find_mux_local_decoder_addr_size level_mems.length := by omega
    refine ⟨hb, binlist_to_nat_itobin_vec _ p hp2, ?_⟩
    rw [List.length_map, itobin_vec_length]
  · intro h1
    unfold build_mux_level_bitstream
    rw [if_pos h1]

/-- Witness for C2 at a level of size 3 with the single set bit at
position 2: the encoded address is the two-bit binary representation of
2 (most-significant bit first), which reads back as 2. -/
theorem c2_local_encoder_round_trip_witness :
    build_mux_level_bitstream [false, false, true] [0, 1, 2] = .ok [true, false] ∧
    binlist_to_nat [true, false] = 2 := by
  obtain ⟨h1, h2, -⟩ :=
    (c2_local_encoder_round_trip [false, false, true] [0, 1, 2] 2).1 (by norm_num) (by rfl)
  exact ⟨h1, h2⟩

/-- Claim C4: for a level of size ≥ 2 in which two or more positions are
set in the raw bitstream, the per-level encoding fails with the
at-most-one-set-bit invariant violation instead of choosing one bit. -/
theorem c4_reject_multiple_set_bits (raw_bitstream : List Bool) (level_mems : List Nat)
    (hL : 2 ≤ level_mems.length)
    (hff : 2 ≤ ((List.range level_mems.length).filter
      (fun mem_index => raw_bitstream.getD (level_mems.getD mem_index 0) false)).length) :
    build_mux_level_bitstream raw_bitstream level_mems =
      .error .assert_at_most_one_set_bit := by
  have hne : ¬ level_mems.length = 1 := by omega
  unfold build_mux_level_bitstream
  rw [if_neg hne, if_neg (by omega)]

/-- Witness for C4 at a level of size 2 with both raw bits set: encoding
fails. -/
theorem c4_reject_multiple_set_bits_witness :
    build_mux_level_bitstream [true, true] [0, 1] = .error .assert_at_most_one_set_bit :=
  c4_reject_multiple_set_bits [true, true] [0, 1] (by norm_num) (by decide)

/-- Claim C7: a level containing exactly one memory contributes exactly
its raw bit, unchanged, to the encoded output. -/
theorem c7_single_memory_level_pass_through (raw_bitstream : List Bool) (level_mems : List Nat)
    (h : level_mems.length = 1) :
    build_mux_level_bitstream raw_bitstream level_mems =
      .ok [raw_bitstream.getD (level_mems.getD 0 0) false] := by
  unfold build_mux_level_bitstream
  rw [if_pos h]

/-- Witness for C7 at a single-memory level whose raw bit is true. -/
theorem c7_single_memory_level_pass_through_witness :
    build_mux_level_bitstream [true] [0] = .ok [true] :=
  c7_single_memory_level_pass_through [true] [0] rfl

/-- Claim C8: for a level of size ≥ 2 in which no position is set in the
raw bitstream, the per-level encoding emits the address code for
position 0 — the all-false word of the decoder's address width — rather
than failing. -/
theorem c8_no_set_bit_encodes_zero (raw_bitstream : List Bool) (level_mems : List Nat)
    (hL : 2 ≤ level_mems.length)
    (hf : (List.range level_mems.length).filter
      (fun mem_index => raw_bitstream.getD (level_mems.getD mem_index 0) false) = []) :
    build_mux_level_bitstream raw_bitstream level_mems =
      .ok (List.replicate (find_mux_local_decoder_addr_size level_mems.length) false) ∧
    binlist_to_nat
      (List.replicate (find_mux_local_decoder_addr_size level_mems.length) false) = 0 := by
  have hne : ¬ level_mems.length = 1 := by omega
  constructor
  · unfold build_mux_level_bitstream
    rw [if_neg hne, hf]
    simp [itobin_vec_zero, List.map_replicate]
  · have h0 := binlist_to_nat_itobin_vec (find_mux_local_decoder_addr_size level_mems.length)
      0 (Nat.pos_pow_of_pos _ (by norm_num))
    rwa [itobin_vec_zero, List.map_replicate] at h0

/-- Witness for C8 at a level of size 2 with no set bit: the encoded
output is the one-bit address of position 0. -/
theorem c8_no_set_bit_encodes_zero_witness :
    build_mux_level_bitstream [false, false] [0, 1] = .ok [false] ∧
    binlist_to_nat [false] = 0 := by
  have h := c8_no_set_bit_encodes_zero [false, false] [0, 1] (by norm_num) (by decide)
  exact h

/-- Claim C3 counterexample: at a ReRAM circuit model the dispatch does
not fail; `build_mux_bitstream` silently returns an empty bitstream (the
ReRAM case of the switch is an unimplemented TODO whose `break` leaves
the default-constructed empty vector), contradicting the claim that the
ReRAM path is a fatal, process-terminating error. -/
theorem c3_rram_silent_empty_counterexample :
    build_mux_bitstream ⟨.rram, false, false⟩
      ⟨fun _ _ => ⟨2, 1, 2, [⟨0, 0, 0, false⟩, ⟨1, 0, 1, false⟩], [[0, 1]]⟩⟩ 2 0 = .ok [] := by
  rfl

/-- Claim C3 (amended): the dispatch branches on the design technology:
CMOS runs the CMOS path-resolution, raw-decode and local-encoding
sequence; ReRAM silently returns an empty bitstream (unimplemented TODO,
no error); any other or unknown technology tag is a fatal error
producing no bitstream. -/
theorem c3_design_tech_dispatch (model : CircuitModel) (mux_lib : MuxLibrary)
    (mux_size : Nat) (path_id : Int) :
    (model.design_tech = .cmos →
      build_mux_bitstream model mux_lib mux_size path_id =
        build_cmos_mux_bitstream model mux_lib mux_size path_id) ∧
    (model.design_tech = .rram →
      build_mux_bitstream model mux_lib mux_size path_id = .ok []) ∧
    (model.design_tech = .other →
      build_mux_bitstream model mux_lib mux_size path_id =
        .error .invalid_design_tech) := by
  refine ⟨?_, ?_, ?_⟩ <;> intro h <;> simp [build_mux_bitstream, h]

/-- Witness for the amended C3 at concrete models of each technology. -/
theorem c3_design_tech_dispatch_witness :
    build_mux_bitstream ⟨.cmos, false, false⟩ ⟨fun _ _ => ⟨1, 1, 1, [], [[0]]⟩⟩ 1 0 =
      build_cmos_mux_bitstream ⟨.cmos, false, false⟩ ⟨fun _ _ => ⟨1, 1, 1, [], [[0]]⟩⟩ 1 0 ∧
    build_mux_bitstream ⟨.rram, true, true⟩ ⟨fun _ _ => ⟨1, 1, 1, [], [[0]]⟩⟩ 1 0 = .ok [] ∧
    build_mux_bitstream ⟨.other, false, false⟩ ⟨fun _ _ => ⟨1, 1, 1, [], [[0]]⟩⟩ 1 0 =
      .error .invalid_design_tech := by
  refine ⟨?_, ?_, ?_⟩
  · exact (c3_design_tech_dispatch ⟨.cmos, false, false⟩
      ⟨fun _ _ => ⟨1, 1, 1, [], [[0]]⟩⟩ 1 0).1 rfl
  · exact (c3_design_tech_dispatch ⟨.rram, true, true⟩
      ⟨fun _ _ => ⟨1, 1, 1, [], [[0]]⟩⟩ 1 0).2.1 rfl
  · exact (c3_design_tech_dispatch ⟨.other, false, false⟩
      ⟨fun _ _ => ⟨1, 1, 1, [], [[0]]⟩⟩ 1 0).2.2 rfl

/-- Claim C5: for an explicit (non-sentinel) path id within the machine
int range, the bounds check against the caller's logical size holds: a
path id within `[0, mux_size)` resolves to itself and the failure branch
is not taken, while a path id outside that range makes
`build_cmos_mux_bitstream` fail with the precondition assertion and
produce no bitstream. -/
theorem c5_explicit_path_bounds_check (model : CircuitModel) (mux_lib : MuxLibrary)
    (mux_size : Nat) (path_id : Int)
    (hne : path_id ≠ DEFAULT_PATH_ID)
    (hlo : -(2 ^ 31) ≤ path_id) (hhi : path_id < 2 ^ 31)
    (hsize : (mux_size : Int) < 2 ^ 63) :
    (0 ≤ path_id ∧ path_id < (mux_size : Int) →
      resolve_cmos_datapath_id model mux_size path_id = .ok path_id.toNat) ∧
    (¬(0 ≤ path_id ∧ path_id < (mux_size : Int)) →
      build_cmos_mux_bitstream model mux_lib mux_size path_id =
        .error .assert_datapath_lt_mux_size) := by
  have h64 : (2 : Int) ^ 64 = 18446744073709551616 := by norm_num
  have h31 : (2 : Int) ^ 31 = 2147483648 := by norm_num
  have h63 : (2 : Int) ^ 63 = 9223372036854775808 := by norm_num
  rw [h31] at hlo hhi
  rw [h63] at hsize
  constructor
  · rintro ⟨hp0, hps⟩
    unfold resolve_cmos_datapath_id
    rw [if_neg hne, h64]
    have hmod : path_id % 18446744073709551616 = path_id := by omega
    have hlt : path_id.toNat < mux_size := by omega
    simp [hmod, hlt]
  · intro hout
    have herr : resolve_cmos_datapath_id model mux_size path_id =
        .error .assert_datapath_lt_mux_size := by
      unfold resolve_cmos_datapath_id
      rw [if_neg hne, h64]
      have hge : ¬ (path_id % 18446744073709551616).toNat < mux_size := by omega
      simp [hge]
    unfold build_cmos_mux_bitstream
    rw [herr]

/-- Witness for C5: on a 4-input multiplexer, explicit path id 2 resolves
to 2, and explicit path id 5 is a fatal precondition failure with no
bitstream produced. -/
theorem c5_explicit_path_bounds_check_witness :
    resolve_cmos_datapath_id ⟨.cmos, false, false⟩ 4 2 = .ok 2 ∧
    build_cmos_mux_bitstream ⟨.cmos, false, false⟩
      ⟨fun _ _ => ⟨4, 1, 4, [], [[0, 1, 2, 3]]⟩⟩ 4 5 =
      .error .assert_datapath_lt_mux_size := by
  constructor
  · exact (c5_explicit_path_bounds_check ⟨.cmos, false, false⟩
      ⟨fun _ _ => ⟨4, 1, 4, [], [[0, 1, 2, 3]]⟩⟩ 4 2 (by decide) (by decide) (by decide)
      (by decide)).1 (by decide)
  · exact (c5_explicit_path_bounds_check ⟨.cmos, false, false⟩
      ⟨fun _ _ => ⟨4, 1, 4, [], [[0, 1, 2, 3]]⟩⟩ 4 5 (by decide) (by decide) (by decide)
      (by decide)).2 (by decide)

/-- Claim C6: when the circuit model does not use a local encoder,
`build_cmos_mux_bitstream` returns exactly the raw decoded bitstream
(one boolean per memory node, in memory-id order), with no level-by-level
re-encoding applied. -/
theorem c6_no_local_encoder_returns_raw (model : CircuitModel) (mux_lib : MuxLibrary)
    (mux_size : Nat) (path_id : Int) (datapath_id : Nat)
    (henc : model.mux_use_local_encoder = false)
    (hres : resolve_cmos_datapath_id model mux_size path_id = .ok datapath_id)
    (hin : datapath_id < (mux_lib.mux_graph model mux_size).num_inputs)
    (hout : (mux_lib.mux_graph model mux_size).num_outputs = 1) :
    build_cmos_mux_bitstream model mux_lib mux_size path_id =
      .ok ((mux_lib.mux_graph model mux_size).decode_memory_bits datapath_id 0) := by
  unfold build_cmos_mux_bitstream
  rw [hres]
  simp [hin, hout, henc]

/-- Witness for C6 at a 2-input, one-level graph without a local encoder:
the result is the raw one-hot decoded bitstream. -/
theorem c6_no_local_encoder_returns_raw_witness :
    build_cmos_mux_bitstream ⟨.cmos, false, false⟩
      ⟨fun _ _ => ⟨2, 1, 2, [⟨0, 0, 0, false⟩, ⟨1, 0, 1, false⟩], [[0, 1]]⟩⟩ 2 0 =
      .ok [true, false] :=
  c6_no_local_encoder_returns_raw ⟨.cmos, false, false⟩
    ⟨fun _ _ => ⟨2, 1, 2, [⟨0, 0, 0, false⟩, ⟨1, 0, 1, false⟩], [[0, 1]]⟩⟩ 2 0 0
    rfl rfl (by norm_num) rfl

/-- Claim C9: for a multiplexer graph satisfying the at-most-one-edge
invariant between any (input, output) pair, the structural Verilog branch
writer's per-pair assertion — `find_edges` returns either one edge or no
edge — holds at every pair it visits. -/
theorem c9_at_most_one_edge_assertion (g : MuxGraph) (h : g.at_most_one_edge_per_pair) :
    verilog_mux_branch_edges_ok g = true := by
  unfold verilog_mux_branch_edges_ok
  rw [List.all_eq_true]
  intro i hi
  rw [List.all_eq_true]
  intro o ho
  have hio := h i o
  simp only [decide_eq_true_eq]
  omega

/-- Witness for C9 at a concrete 2-input, single-edge branch graph. -/
theorem c9_at_most_one_edge_assertion_witness :
    verilog_mux_branch_edges_ok ⟨2, 1, 1, [⟨0, 0, 0, false⟩], [[0]]⟩ = true := by
  apply c9_at_most_one_edge_assertion
  intro i o
  have hlen := List.length_filter_le
    (fun e => e.from_input == i && e.to_output == o) [(⟨0, 0, 0, false⟩ : MuxEdge)]
  simpa [MuxGraph.find_edges] using hlen

/-- Claim C10: for every edge, the writer wires the pass-gate's second
input port to `mem[m]` and its third input port to `mem_inv[m]` when the
edge does not use the inverted-memory convention, and swaps the two
connections when it does (`m` being the edge's controlling memory id). -/
theorem c10_mem_port_polarity (ports : TgatePorts) (e : MuxEdge)
    (input_id output_id : Nat) :
    (mux_branch_tgate_port2port ports e input_id output_id)[2]? =
      some (ports.in1,
        if is_edge_use_inv_mem e then (⟨"mem_inv", e.mem, e.mem⟩ : BasicPort)
        else ⟨"mem", e.mem, e.mem⟩) ∧
    (mux_branch_tgate_port2port ports e input_id output_id)[3]? =
      some (ports.in2,
        if is_edge_use_inv_mem e then (⟨"mem", e.mem, e.mem⟩ : BasicPort)
        else ⟨"mem_inv", e.mem, e.mem⟩) := by
  cases he : e.inv_mem <;>
    simp [mux_branch_tgate_port2port, is_edge_use_inv_mem, find_edge_mem, he]
